import Mathlib

/-!
Verification of the receipt-OCR value-extraction pipeline of this repository
(src/app.py and src/api.py).

Modelling conventions:

* Python strings are modelled as `String` / `List Char`; `str.upper` is
  modelled per character by `Char.toUpper` (faithful for the ASCII keywords
  and pattern literals involved; exotic Unicode case rules are out of scope).
* The concrete regular expressions of the source,
  `KEYWORD\s*R?\$?\s*(\d+[.,]\d+)` (with `re.IGNORECASE`) and the
  `re.findall` pattern `R?\$?\s*(\d+[.,]\d+)`, are compiled by hand into
  deterministic matchers.  Because the character classes involved are
  pairwise disjoint (whitespace, `R`/`r`, `$`, digits), greedy matching
  never needs to backtrack, so the deterministic maximal-munch matchers
  below compute exactly Python's leftmost match and its group(1) capture.
* `float(...)` applied to a captured `digits[.,]digits` string (after the
  source's `.replace(",", ".")`) is modelled exactly over `ℚ`: the claims
  are about decimal values, and the captured numerals are small enough that
  the binary-double rounding of Python's `float` plays no part in any claim.
* OpenCV and numpy calls are modelled by their documented contracts; the
  comments at each such definition say exactly what is taken from the
  library contract and what is translated from the repository's own code.
-/

/-- Python's `\s` character class (ASCII part): space, tab, newline,
carriage return, vertical tab, form feed. -/
def isPySpace (c : Char) : Bool :=
  c = ' ' || c = '\t' || c = '\n' || c = '\r' || c = '\x0b' || c = '\x0c'

/-- Matcher for `\d+[.,]\d+` at the head of `s`.  Returns the matched
(captured) characters and the remaining input.  `\d+` is greedy; as argued
above no backtracking can occur: after the maximal digit run the next
character either is `[.,]` or the whole pattern fails at this position. -/
def matchNum (s : List Char) : Option (List Char × List Char) :=
  let d1 := s.takeWhile Char.isDigit
  let r1 := s.dropWhile Char.isDigit
  if d1.isEmpty then none
  else
    match r1 with
    | [] => none
    | sep :: r2 =>
      if sep = '.' || sep = ',' then
        let d2 := r2.takeWhile Char.isDigit
        let r3 := r2.dropWhile Char.isDigit
        if d2.isEmpty then none else some (d1 ++ sep :: d2, r3)
      else none

/-- Matcher for the `re.findall` pattern `R?\$?\s*(\d+[.,]\d+)`
(`re.IGNORECASE` makes `R?` also match `r`) at the head of `s`.
Returns the group(1) capture and the rest of the input after the match. -/
def matchRSNum (s : List Char) : Option (List Char × List Char) :=
  let s1 := match s with
    | 'R' :: rest => rest
    | 'r' :: rest => rest
    | _ => s
  let s2 := match s1 with
    | '$' :: rest => rest
    | _ => s1
  matchNum (s2.dropWhile isPySpace)

/-- Case-insensitive literal matcher: `matchLit kw s` consumes the keyword
`kw` (stored uppercase, exactly as written in the source patterns) from the
head of `s`, comparing each input character through `Char.toUpper` —
the model of a literal under `re.IGNORECASE`. -/
def matchLit : List Char → List Char → Option (List Char)
  | [], s => some s
  | _ :: _, [] => none
  | k :: ks, c :: cs => if c.toUpper = k then matchLit ks cs else none

/-- One Tier-1 pattern `KW\s*R?\$?\s*(\d+[.,]\d+)` tried at the current
position: the keyword literal, then the whitespace gap, then the optional
currency marker and the captured number.  Returns group(1). -/
def patAt (kw : List Char) (s : List Char) : Option (List Char) :=
  match matchLit kw s with
  | none => none
  | some r =>
    match matchRSNum (r.dropWhile isPySpace) with
    | some (cap, _) => some cap
    | none => none

/-- `re.search` for one Tier-1 pattern: try every start position from the
left and return group(1) of the leftmost match. -/
def searchPat (kw : List Char) : List Char → Option (List Char)
  | [] => patAt kw []
  | c :: rest =>
    match patAt kw (c :: rest) with
    | some cap => some cap
    | none => searchPat kw rest

/-- Worker for `re.findall`: scan left to right, collecting group(1) of each
non-overlapping match and resuming after it.  The fuel starts at the input
length; every step consumes at least one input character (a match consumes
at least three), so the fuel never runs out before the input does. -/
def findallAux : Nat → List Char → List (List Char)
  | 0, _ => []
  | _ + 1, [] => []
  | fuel + 1, c :: rest =>
    match matchRSNum (c :: rest) with
    | some (cap, r) => cap :: findallAux fuel r
    | none => findallAux fuel rest

/-- `re.findall(r"R?\$?\s*(\d+[.,]\d+)", s)`: the list of captured numbers. -/
def findallNums (s : List Char) : List (List Char) := findallAux s.length s

/-- Numeric value of a digit string (most significant first). -/
def digitsToNat (ds : List Char) : Nat :=
  ds.foldl (fun n c => 10 * n + (c.toNat - 48)) 0

/-- `float(valor_str)` where `valor_str = matches.group(1).replace(",", ".")`:
the capture has the shape `digits [.,] digits`, so the parse always succeeds;
its value is `intpart + fracpart / 10^len`, modelled exactly over `ℚ`
(the separator is skipped whatever it is, which subsumes the
`.replace(",", ".")` normalisation of the source). -/
def parseValor (cap : List Char) : ℚ :=
  (digitsToNat (cap.takeWhile Char.isDigit) : ℚ) +
    (digitsToNat ((cap.dropWhile Char.isDigit).drop 1) : ℚ) /
      (10 : ℚ) ^ ((cap.dropWhile Char.isDigit).drop 1).length

/-- `n` is an initial segment of `h` (Python `h.startswith(n)` on lists). -/
def leadsWith : List Char → List Char → Bool
  | [], _ => true
  | _ :: _, [] => false
  | a :: n, b :: h => a = b && leadsWith n h

/-- Python's substring test `n in h`. -/
def containsSub (n : List Char) : List Char → Bool
  | [] => n.isEmpty
  | c :: t => leadsWith n (c :: t) || containsSub n t

/-- Python's `h.find(n)`: index of the first occurrence, `none` for `-1`. -/
def findSub (n : List Char) : List Char → Option Nat
  | [] => if n.isEmpty then some 0 else none
  | c :: t =>
    if leadsWith n (c :: t) then some 0
    else (findSub n t).map (· + 1)

/-- `n` occurs contiguously inside `h`. -/
def InfixOf (n h : List Char) : Prop := ∃ s t, h = s ++ n ++ t

/-- Worker for the splitter underlying `str.splitlines`: cut at `\n`,
`\r\n` or `\r` (the line boundaries that can occur in OCR text; the exotic
Unicode boundaries Python additionally recognises are out of scope).  As in
`findallAux` the fuel starts at the input length and every step consumes at
least one character, so it never runs out before the input does. -/
def splitNlAux : Nat → List Char → List (List Char)
  | 0, _ => [[]]
  | _ + 1, [] => [[]]
  | fuel + 1, c :: rest =>
    if c = '\n' then [] :: splitNlAux fuel rest
    else if c = '\r' then
      [] :: splitNlAux fuel (if leadsWith ['\n'] rest then rest.drop 1 else rest)
    else
      match splitNlAux fuel rest with
      | [] => [[c]]
      | l :: ls => (c :: l) :: ls

/-- Splitter underlying `str.splitlines`. -/
def splitOnNl (s : List Char) : List (List Char) := splitNlAux s.length s

/-- Python `texto.splitlines()`: like `splitOnNl` but the empty string gives
`[]` and a trailing line boundary produces no trailing empty line. -/
def splitLines (s : List Char) : List (List Char) :=
  if s.isEmpty then []
  else
    match s.getLast? with
    | some '\n' => (splitOnNl s).dropLast
    | some '\r' => (splitOnNl s).dropLast
    | _ => splitOnNl s

/-- The keyword list of both Tier-2 variants (api.py line 79, app.py
line 151): `["TOTAL", "VALOR", "PAGAR"]`. -/
def palavrasChave : List (List Char) :=
  ["TOTAL".data, "VALOR".data, "PAGAR".data]

/-- api.py line 79: `any(palavra in linha.upper() for palavra in [...])`. -/
def hasKeyword (linha : List Char) : Bool :=
  palavrasChave.any (fun p => containsSub p (linha.map Char.toUpper))

/-- api.py lines 81-84 / 90-92: the last captured number of a line,
`valores[-1]`, when `re.findall` found any. -/
def lastVal (linha : List Char) : Option (List Char) := (findallNums linha).getLast?

/-- api.py lines 88-93: the inner `for j in range(1, 3)` loop — look at the
next line and then the one after, returning the last number of the first of
them that has any. -/
def lookNext : List (List Char) → Option (List Char)
  | [] => none
  | l1 :: ls =>
    match lastVal l1 with
    | some v => some v
    | none =>
      match ls with
      | [] => none
      | l2 :: _ => lastVal l2

/-- api.py lines 77-93: the line-based Tier-2 scan.  For each line holding a
keyword: return its last number if it has one, else the last number of one
of the following two lines if they have one, else keep scanning. -/
def tier2Api : List (List Char) → Option (List Char)
  | [] => none
  | linha :: rest =>
    if hasKeyword linha then
      match lastVal linha with
      | some v => some v
      | none =>
        match lookNext rest with
        | some v => some v
        | none => tier2Api rest
    else tier2Api rest

/-- app.py lines 151-161: the window-based Tier-2 scan.  For each keyword in
order: find its first occurrence in the uppercased text, take the 30
characters of the original text from that index, and return the last number
found there, if any; otherwise try the next keyword. -/
def tier2App (texto : List Char) : Option (List Char) :=
  palavrasChave.findSome? (fun palavra =>
    match findSub palavra (texto.map Char.toUpper) with
    | some idx => lastVal ((texto.drop idx).take 30)
    | none => none)

/-- The Tier-1 pattern list of api.py lines 58-65 (keywords of the six
regexes, in their listed priority order). -/
def padroesApi : List (List Char) :=
  ["VALOR TOTAL".data, "TOTAL".data, "TOTAL A PAGAR".data,
   "VALOR A PAGAR".data, "TOTAL:".data, "VL TOTAL".data]

/-- app.py lines 119-132, `carregar_padroes_regex`: the same six patterns,
precompiled with `re.IGNORECASE` and memoised by `lru_cache`.  Compilation
and caching of a pure value are semantics-preserving, so the model is again
the list of pattern keywords in order. -/
def carregar_padroes_regex : List (List Char) :=
  ["VALOR TOTAL".data, "TOTAL".data, "TOTAL A PAGAR".data,
   "VALOR A PAGAR".data, "TOTAL:".data, "VL TOTAL".data]

/-- api.py lines 53-96, `extrair_valor_total`: Tier 1 — first pattern, in
listed order, whose `re.search` matches wins, and its group(1) is normalised
and parsed; otherwise the line-based Tier-2 scan. -/
def extrair_valor_total_api (texto : String) : Option ℚ :=
  match padroesApi.findSome? (fun kw => searchPat kw texto.data) with
  | some cap => some (parseValor cap)
  | none => (tier2Api (splitLines texto.data)).map parseValor

/-- app.py lines 134-164, `extrair_valor_total`: same Tier 1 over the
precompiled patterns; otherwise the window-based Tier-2 scan. -/
def extrair_valor_total_app (texto : String) : Option ℚ :=
  match carregar_padroes_regex.findSome? (fun kw => searchPat kw texto.data) with
  | some cap => some (parseValor cap)
  | none => (tier2App texto.data).map parseValor

/-! ### The HTTP endpoints (error routing)

The pipeline stages that precede `extrair_valor_total` in the endpoints —
file read, `cv2.imdecode`/`Image.open`, preprocessing and
`pytesseract.image_to_string` — are external capabilities; the endpoint
model abstracts their combined outcome as `ocr : Except PyExc String`:
either the OCR text, or the Python exception one of them raised. -/

/-- A Python exception as the endpoints' `except Exception` sees it:
either a fastapi `HTTPException` (a subclass of `Exception`) or any other
exception, reduced to its message. -/
inductive PyExc where
  | httpExc (status : Nat) (detail : String)
  | other (msg : String)
deriving DecidableEq

/-- Python's `str(e)` as used in the 500 detail: starlette's
`HTTPException.__str__` prints `"{status_code}: {detail}"`; any other
exception is reduced to its message. -/
def strOfExc : PyExc → String
  | .httpExc s d => toString s ++ ": " ++ d
  | .other m => m

/-- The HTTP response the caller of an endpoint observes. -/
inductive Resp where
  | ok (valor : ℚ)
  | err (status : Nat) (detail : String)
deriving DecidableEq

/-- `content_type.startswith("image/")` (api.py line 24 / app.py line 174). -/
def startsWithImage (content_type : String) : Bool :=
  leadsWith "image/".data content_type.data

/-- app.py lines 166-240, endpoint `extrair_valor_cupom`.  The content-type
check and its 400 happen before the `try` block.  Everything else — the
pipeline, and in particular the `raise HTTPException(404)` on a `None`
extraction — happens inside `try: ... except Exception as e:`, whose
handler re-raises every caught exception (the 404 included, since fastapi's
`HTTPException` subclasses `Exception`) as a 500 with detail
`"Erro ao processar a imagem: " + str(e)`. -/
def extrair_valor_cupom_app (content_type : String) (ocr : Except PyExc String) : Resp :=
  if startsWithImage content_type then
    match
      (match ocr with
       | .error e => Except.error e
       | .ok texto =>
         match extrair_valor_total_app texto with
         | some v => Except.ok v
         | none =>
           Except.error (PyExc.httpExc 404
             "Não foi possível encontrar o valor total no cupom") : Except PyExc ℚ)
    with
    | .ok v => Resp.ok v
    | .error e => Resp.err 500 ("Erro ao processar a imagem: " ++ strOfExc e)
  else Resp.err 400 "O arquivo enviado não é uma imagem"

/-- api.py lines 17-51, endpoint `extrair_valor_cupom`: identical control
flow (no preprocessing, but that is abstracted inside `ocr` anyway), using
api.py's extractor. -/
def extrair_valor_cupom_api (content_type : String) (ocr : Except PyExc String) : Resp :=
  if startsWithImage content_type then
    match
      (match ocr with
       | .error e => Except.error e
       | .ok texto =>
         match extrair_valor_total_api texto with
         | some v => Except.ok v
         | none =>
           Except.error (PyExc.httpExc 404
             "Não foi possível encontrar o valor total no cupom") : Except PyExc ℚ)
    with
    | .ok v => Resp.ok v
    | .error e => Resp.err 500 ("Erro ao processar a imagem: " ++ strOfExc e)
  else Resp.err 400 "O arquivo enviado não é uma imagem"

/-! ### The image pipeline (app.py) -/

/-- An in-memory image: a numpy array of shape `(altura, largura)` for
`canais = 1`, or `(altura, largura, canais)` otherwise.  `dados r c k` is
the pixel value at row `r`, column `c`, channel `k`. -/
structure Img where
  altura : Nat
  largura : Nat
  canais : Nat
  dados : Nat → Nat → Nat → Nat

/-- app.py line 21. -/
def MAX_SIZE : Nat := 1200

/-- Model of `cv2.resize(img, (largura, altura))`: OpenCV's contract is
that the output has exactly the requested dimensions; no claim depends on
the interpolated pixel content, which is modelled as plain coordinate
sampling. -/
def cv2_resize (img : Img) (largura altura : Nat) : Img :=
  { altura := altura, largura := largura, canais := img.canais,
    dados := fun r c k => img.dados (r * img.altura / altura) (c * img.largura / largura) k }

/-- app.py lines 23-44, `redimensionar_imagem`: unchanged when the longer
side is at most `max_size`; otherwise the longer side is set to `max_size`
and the shorter side to `int(shorter * (max_size / longer))`.  The float
scale of the source is modelled exactly over `ℚ`; `int(...)` of this
non-negative value is its floor. -/
def redimensionar_imagem (imagem : Img) (max_size : Nat) : Img :=
  if max imagem.altura imagem.largura ≤ max_size then imagem
  else if imagem.largura < imagem.altura then
    cv2_resize imagem
      (Nat.floor ((imagem.largura : ℚ) * ((max_size : ℚ) / (imagem.altura : ℚ)))) max_size
  else
    cv2_resize imagem max_size
      (Nat.floor ((imagem.altura : ℚ) * ((max_size : ℚ) / (imagem.largura : ℚ))))

/-- Model of `cv2.cvtColor(img, cv2.COLOR_BGR2GRAY)`: a single-channel
image of the same dimensions; the luminance weights (BGR order) follow
OpenCV's documented formula, over integers. -/
def cv2_cvtColor_gray (img : Img) : Img :=
  { altura := img.altura, largura := img.largura, canais := 1,
    dados := fun r c _ =>
      (114 * img.dados r c 0 + 587 * img.dados r c 1 + 299 * img.dados r c 2) / 1000 }

/-- Model of `cv2.threshold(img, 0, 255, cv2.THRESH_BINARY + cv2.THRESH_OTSU)`:
with `THRESH_BINARY` every output pixel is `255` where the source exceeds
the selected threshold and `0` elsewhere.  Otsu's histogram search only
selects the threshold value, so it is passed in as `t`; the claims hold for
every choice of `t`. -/
def cv2_threshold_binary (img : Img) (t : Nat) : Img :=
  { altura := img.altura, largura := img.largura, canais := img.canais,
    dados := fun r c k => if t < img.dados r c k then 255 else 0 }

/-- app.py lines 94-117, `melhorar_imagem_para_ocr` (on an array input; the
PIL round-trips at entry and exit change no pixel): resize with the finer
cap 800, convert to grayscale when the array still has a channel axis
(`len(shape) == 3`, i.e. `canais ≠ 1`), then Otsu binarization.  `otsuT` is
the threshold Otsu's method selects for this image. -/
def melhorar_imagem_para_ocr (imagem : Img) (otsuT : Nat) : Img :=
  cv2_threshold_binary
    (if (redimensionar_imagem imagem 800).canais = 1
     then redimensionar_imagem imagem 800
     else cv2_cvtColor_gray (redimensionar_imagem imagem 800))
    otsuT

/-- A contour as returned by `cv2.findContours`: its list of pixel
coordinates `(x, y)`. -/
abbrev Contour := List (Nat × Nat)

/-- One term `x_i * y_j - x_j * y_i` of the shoelace sum. -/
def shoelaceTerm (p q : Nat × Nat) : Int :=
  (p.1 : Int) * (q.2 : Int) - (q.1 : Int) * (p.2 : Int)

/-- Shoelace sum over the closed polygon `p :: ps` (wrapping back to the
first point). -/
def shoelaceAux (first : Nat × Nat) : List (Nat × Nat) → Int
  | [] => 0
  | [q] => shoelaceTerm q first
  | q :: r :: rest => shoelaceTerm q r + shoelaceAux first (r :: rest)

/-- Model of `cv2.contourArea`: half the absolute shoelace sum of the
closed polygon (Green's formula, which is OpenCV's documented algorithm). -/
def contourArea : Contour → ℚ
  | [] => 0
  | p :: ps => ((shoelaceAux p (p :: ps)).natAbs : ℚ) / 2

/-- An axis-aligned box, as `cv2.boundingRect` returns it. -/
structure Rect where
  x : Nat
  y : Nat
  w : Nat
  h : Nat

/-- Minimum of `f` over `ps`, seeded with `a`. -/
def foldMinBy (f : Nat × Nat → Nat) (ps : List (Nat × Nat)) (a : Nat) : Nat :=
  ps.foldl (fun m q => min m (f q)) a

/-- Maximum of `f` over `ps`, seeded with `a`. -/
def foldMaxBy (f : Nat × Nat → Nat) (ps : List (Nat × Nat)) (a : Nat) : Nat :=
  ps.foldl (fun m q => max m (f q)) a

/-- Model of `cv2.boundingRect`: the tight axis-aligned box of the points,
with `w = xmax - xmin + 1` and `h = ymax - ymin + 1` (OpenCV's convention
for integer point sets); the all-zero box for an empty point set. -/
def boundingRect : Contour → Rect
  | [] => ⟨0, 0, 0, 0⟩
  | p :: ps =>
    ⟨foldMinBy Prod.fst ps p.1, foldMinBy Prod.snd ps p.2,
     foldMaxBy Prod.fst ps p.1 - foldMinBy Prod.fst ps p.1 + 1,
     foldMaxBy Prod.snd ps p.2 - foldMinBy Prod.snd ps p.2 + 1⟩

/-- Python's `max(..., key=cv2.contourArea)` keeps the current best and
replaces it only on a strictly greater key, so ties resolve to the first. -/
def maxByArea : Contour → List Contour → Contour
  | best, [] => best
  | best, c :: rest => maxByArea (if contourArea best < contourArea c then c else best) rest

/-- `max(contornos_grandes, key=cv2.contourArea)` (app.py line 83); the
empty case cannot be reached (Python's `max` would raise there). -/
def pickMax : List Contour → Contour
  | [] => []
  | c :: rest => maxByArea c rest

/-- app.py line 75: `area_minima = shape[0] * shape[1] * 0.05` — 5% of the
working image's area (`0.05` is modelled exactly). -/
def areaMinima (img : Img) : ℚ := ((img.altura : ℚ) * (img.largura : ℚ)) * (0.05 : ℚ)

/-- Numpy slice `img[y:y+h, x:x+w]`: slice bounds clamp to the array's
extent, so each output dimension is `min(start+len, size) - min(start, size)`. -/
def cropImg (img : Img) (x y w h : Nat) : Img :=
  { altura := min (y + h) img.altura - min y img.altura,
    largura := min (x + w) img.largura - min x img.largura,
    canais := img.canais,
    dados := fun r c k => img.dados (y + r) (x + c) k }

/-- app.py line 51: the working image of the detector — the input after the
coarse resize to `MAX_SIZE`. -/
def imagemTrabalho (imagem : Img) : Img := redimensionar_imagem imagem MAX_SIZE

/-- app.py line 76: the contours whose area strictly exceeds `area_minima`. -/
def contornosGrandes (imagem : Img) (contornos : List Contour) : List Contour :=
  contornos.filter (fun c => decide (areaMinima (imagemTrabalho imagem) < contourArea c))

/-- app.py lines 83-86: the bounding box of the largest surviving contour. -/
def caixaSelecionada (imagem : Img) (contornos : List Contour) : Rect :=
  boundingRect (pickMax (contornosGrandes imagem contornos))

/-- app.py lines 46-92, `detectar_e_cortar_cupom`.  The grayscale, blur,
Canny and dilation steps only feed `cv2.findContours`, an external edge
analysis whose result is the parameter `contornos`; from there on the
function's own logic is translated: fall back to the working image when
there are no contours or none is large enough, otherwise crop the working
image to the bounding box of the largest surviving contour. -/
def detectar_e_cortar_cupom (imagem : Img) (contornos : List Contour) : Img :=
  if contornos.isEmpty then imagemTrabalho imagem
  else if (contornosGrandes imagem contornos).isEmpty then imagemTrabalho imagem
  else
    cropImg (imagemTrabalho imagem)
      (caixaSelecionada imagem contornos).x (caixaSelecionada imagem contornos).y
      (caixaSelecionada imagem contornos).w (caixaSelecionada imagem contornos).h

/-! ## Helper lemmas -/

theorem parseValor_eq_of (cap : List Char) (a b n : Nat)
    (h1 : digitsToNat (cap.takeWhile Char.isDigit) = a)
    (h2 : digitsToNat ((cap.dropWhile Char.isDigit).drop 1) = b)
    (h3 : ((cap.dropWhile Char.isDigit).drop 1).length = n) :
    parseValor cap = (a : ℚ) + (b : ℚ) / (10 : ℚ) ^ n := by
  unfold parseValor
  rw [h1, h2, h3]

theorem parseValor_nonneg (cap : List Char) : 0 ≤ parseValor cap := by
  unfold parseValor
  have h1 : (0:ℚ) ≤ (digitsToNat (cap.takeWhile Char.isDigit) : ℚ) := Nat.cast_nonneg _
  have h2 : (0:ℚ) ≤ (digitsToNat ((cap.dropWhile Char.isDigit).drop 1) : ℚ) := Nat.cast_nonneg _
  have h3 : (0:ℚ) ≤ (10 : ℚ) ^ ((cap.dropWhile Char.isDigit).drop 1).length :=
    pow_nonneg (by norm_num) _
  exact add_nonneg h1 (div_nonneg h2 h3)

theorem findSomeNone {α β : Type} (f : α → Option β) :
    ∀ l : List α, (∀ a ∈ l, f a = none) → l.findSome? f = none := by
  intro l
  induction l with
  | nil => intro _; rfl
  | cons a t ih =>
    intro h
    have ha : f a = none := h a (List.mem_cons_self a t)
    have ht : ∀ x ∈ t, f x = none := fun x hx => h x (List.mem_cons_of_mem a hx)
    simp [List.findSome?, ha, ih ht]

theorem leadsWith_iff (n : List Char) : ∀ h : List Char,
    leadsWith n h = true ↔ ∃ t, h = n ++ t := by
  induction n with
  | nil => intro h; simp [leadsWith]
  | cons a n ih =>
    intro h
    cases h with
    | nil => simp [leadsWith]
    | cons b t =>
      simp only [leadsWith, Bool.and_eq_true, decide_eq_true_eq, ih t]
      constructor
      · rintro ⟨rfl, u, rfl⟩
        exact ⟨u, rfl⟩
      · rintro ⟨u, hu⟩
        injection hu with h1 h2
        exact ⟨h1.symm, by rw [h2]; exact ⟨u, rfl⟩⟩

theorem infixOf_trans {a b c : List Char} (h1 : InfixOf a b) (h2 : InfixOf b c) :
    InfixOf a c := by
  obtain ⟨s1, t1, rfl⟩ := h1
  obtain ⟨s2, t2, rfl⟩ := h2
  exact ⟨s2 ++ s1, t1 ++ t2, by simp [List.append_assoc]⟩

theorem infixOf_cons {n t : List Char} (c : Char) (h : InfixOf n t) :
    InfixOf n (c :: t) := by
  obtain ⟨s, u, rfl⟩ := h
  exact ⟨c :: s, u, rfl⟩

theorem infixOf_map (f : Char → Char) {n h : List Char} (hi : InfixOf n h) :
    InfixOf (n.map f) (h.map f) := by
  obtain ⟨s, t, rfl⟩ := hi
  exact ⟨s.map f, t.map f, by simp⟩

theorem containsSub_nil_left : ∀ h : List Char, containsSub [] h = true := by
  intro h
  cases h <;> simp [containsSub, leadsWith]

theorem containsSub_of_infixOf {n h : List Char} (hi : InfixOf n h) :
    containsSub n h = true := by
  obtain ⟨s, t, rfl⟩ := hi
  induction s with
  | nil =>
    simp only [List.nil_append]
    cases n with
    | nil => exact containsSub_nil_left t
    | cons a m =>
      have hl : leadsWith (a :: m) ((a :: m) ++ t) = true := (leadsWith_iff _ _).mpr ⟨t, rfl⟩
      show (leadsWith (a :: m) ((a :: m) ++ t) || containsSub (a :: m) (m ++ t)) = true
      rw [hl]
      simp
  | cons c s ih =>
    show (leadsWith n (c :: (s ++ n ++ t)) || containsSub n (s ++ n ++ t)) = true
    rw [ih]
    simp

theorem infixOf_of_containsSub {n : List Char} : ∀ {h : List Char},
    containsSub n h = true → InfixOf n h := by
  intro h
  induction h with
  | nil =>
    intro hc
    simp only [containsSub, List.isEmpty_iff] at hc
    exact ⟨[], [], by simp [hc]⟩
  | cons c t ih =>
    intro hc
    rcases Bool.or_eq_true_iff.mp hc with hl | hr
    · obtain ⟨u, hu⟩ := (leadsWith_iff _ _).mp hl
      exact ⟨[], u, by simp [hu]⟩
    · exact infixOf_cons c (ih hr)

theorem findSub_infixOf {n : List Char} : ∀ {h : List Char} {i : Nat},
    findSub n h = some i → InfixOf n h := by
  intro h
  induction h with
  | nil =>
    intro i hf
    simp only [findSub] at hf
    split at hf
    · next he => exact ⟨[], [], by simp [List.isEmpty_iff.mp he]⟩
    · exact absurd hf (by simp)
  | cons c t ih =>
    intro i hf
    simp only [findSub] at hf
    split at hf
    · next hl =>
      obtain ⟨u, hu⟩ := (leadsWith_iff _ _).mp hl
      exact ⟨[], u, by simp [hu]⟩
    · rcases Option.map_eq_some'.mp hf with ⟨j, hj, -⟩
      exact infixOf_cons c (ih hj)

theorem matchLit_decomp : ∀ (kw s r : List Char), matchLit kw s = some r →
    ∃ pre, s = pre ++ r ∧ pre.map Char.toUpper = kw := by
  intro kw
  induction kw with
  | nil =>
    intro s r h
    simp only [matchLit, Option.some.injEq] at h
    exact ⟨[], by simp [h]⟩
  | cons k ks ih =>
    intro s r h
    cases s with
    | nil => exact absurd h (by simp [matchLit])
    | cons c cs =>
      simp only [matchLit] at h
      split at h
      · next hck =>
        obtain ⟨pre, hpre, hmap⟩ := ih cs r h
        exact ⟨c :: pre, by simp [hpre], by simp [hmap, hck]⟩
      · exact absurd h (by simp)

theorem patAt_infixOf {kw s cap : List Char} (h : patAt kw s = some cap) :
    InfixOf kw (s.map Char.toUpper) := by
  unfold patAt at h
  cases hm : matchLit kw s with
  | none => rw [hm] at h; exact absurd h (by simp)
  | some r =>
    obtain ⟨pre, hpre, hmap⟩ := matchLit_decomp kw s r hm
    exact ⟨[], r.map Char.toUpper, by simp [hpre, hmap]⟩

theorem searchPat_infixOf {kw : List Char} : ∀ {t : List Char} {cap : List Char},
    searchPat kw t = some cap → InfixOf kw (t.map Char.toUpper) := by
  intro t
  induction t with
  | nil => intro cap h; exact patAt_infixOf h
  | cons c rest ih =>
    intro cap h
    simp only [searchPat] at h
    cases hp : patAt kw (c :: rest) with
    | some v => exact patAt_infixOf hp
    | none =>
      rw [hp] at h
      exact infixOf_cons _ (ih h)

theorem searchPat_none_of (kw sub t : List Char) (hsub : InfixOf sub kw)
    (hna : containsSub sub (t.map Char.toUpper) = false) :
    searchPat kw t = none := by
  cases h : searchPat kw t with
  | none => rfl
  | some cap =>
    exact absurd (containsSub_of_infixOf (infixOf_trans hsub (searchPat_infixOf h)))
      (by simp [hna])

theorem splitNlAux_shape : ∀ (fuel : Nat) (s : List Char),
    ∃ hd tl, splitNlAux fuel s = hd :: tl ∧
      (∃ t, s = hd ++ t) ∧ ∀ l ∈ tl, InfixOf l s := by
  intro fuel
  induction fuel with
  | zero =>
    intro s
    exact ⟨[], [], rfl, ⟨s, rfl⟩, by simp⟩
  | succ fuel ih =>
    intro s
    cases s with
    | nil => exact ⟨[], [], rfl, ⟨[], rfl⟩, by simp⟩
    | cons c rest =>
      by_cases hc : c = '\n'
      · subst hc
        obtain ⟨hd, tl, hsp, ⟨t, ht⟩, htl⟩ := ih rest
        refine ⟨[], splitNlAux fuel rest, by simp [splitNlAux], ⟨'\n' :: rest, rfl⟩, ?_⟩
        intro l hl
        rw [hsp] at hl
        rcases List.mem_cons.mp hl with rfl | hmem
        · exact ⟨['\n'], t, by simp [ht]⟩
        · exact infixOf_cons _ (htl l hmem)
      · by_cases hr : c = '\r'
        · subst hr
          by_cases hnl : leadsWith ['\n'] rest = true
          · obtain ⟨u, hu⟩ := (leadsWith_iff _ _).mp hnl
            subst hu
            obtain ⟨hd, tl, hsp, ⟨t, ht⟩, htl⟩ := ih u
            refine ⟨[], splitNlAux fuel u, ?_, ⟨'\r' :: '\n' :: u, rfl⟩, ?_⟩
            · have hll : leadsWith ['\n'] ('\n' :: u) = true := by simp [leadsWith]
              simp [splitNlAux, hc, hll]
            · intro l hl
              rw [hsp] at hl
              rcases List.mem_cons.mp hl with rfl | hmem
              · exact ⟨['\r', '\n'], t, by simp [ht]⟩
              · exact infixOf_cons _ (infixOf_cons _ (htl l hmem))
          · obtain ⟨hd, tl, hsp, ⟨t, ht⟩, htl⟩ := ih rest
            refine ⟨[], splitNlAux fuel rest, ?_, ⟨'\r' :: rest, rfl⟩, ?_⟩
            · simp [splitNlAux, hc, hnl]
            · intro l hl
              rw [hsp] at hl
              rcases List.mem_cons.mp hl with rfl | hmem
              · exact ⟨['\r'], t, by simp [ht]⟩
              · exact infixOf_cons _ (htl l hmem)
        · obtain ⟨hd, tl, hsp, ⟨t, ht⟩, htl⟩ := ih rest
          refine ⟨c :: hd, tl, ?_, ⟨t, by simp [ht]⟩, ?_⟩
          · simp only [splitNlAux, if_neg hc, if_neg hr]
            rw [hsp]
          · intro l hl
            exact infixOf_cons _ (htl l hl)

theorem splitLines_infixOf {s : List Char} {l : List Char}
    (hl : l ∈ splitLines s) : InfixOf l s := by
  have hmem : l ∈ splitOnNl s := by
    unfold splitLines at hl
    split at hl
    · exact absurd hl (by simp)
    · split at hl
      · exact List.dropLast_subset _ hl
      · exact List.dropLast_subset _ hl
      · exact hl
  obtain ⟨hd, tl, hsp, ⟨t, ht⟩, htl⟩ := splitNlAux_shape s.length s
  rw [show splitOnNl s = splitNlAux s.length s from rfl, hsp] at hmem
  rcases List.mem_cons.mp hmem with rfl | hmem2
  · exact ⟨[], t, by simp [ht]⟩
  · exact htl l hmem2

theorem tier2Api_none : ∀ ls : List (List Char),
    (∀ l ∈ ls, hasKeyword l = false) → tier2Api ls = none := by
  intro ls
  induction ls with
  | nil => intro _; rfl
  | cons linha rest ih =>
    intro h
    have h1 : hasKeyword linha = false := h linha (List.mem_cons_self _ _)
    have h2 : ∀ l ∈ rest, hasKeyword l = false := fun l hl => h l (List.mem_cons_of_mem _ hl)
    simp [tier2Api, h1, ih h2]

/-! ## Claims about the Value Extractor -/

/-- C1: on `"VALOR TOTAL R$ 45,90"` both extractor variants return `45.90`,
and on `"TOTAL: 12.50"` both return `12.50`; moreover, whenever some Tier-1
pattern matches, the extractors return the parsed (comma-normalised)
group(1) capture of the first matching pattern in the listed priority
order, immediately (the Tier-2 scan plays no part). -/
theorem C1_tier1_prioridade :
    extrair_valor_total_app "VALOR TOTAL R$ 45,90" = some (45.90 : ℚ) ∧
    extrair_valor_total_app "TOTAL: 12.50" = some (12.50 : ℚ) ∧
    extrair_valor_total_api "VALOR TOTAL R$ 45,90" = some (45.90 : ℚ) ∧
    extrair_valor_total_api "TOTAL: 12.50" = some (12.50 : ℚ) ∧
    (∀ (t : String) (cap : List Char),
      padroesApi.findSome? (fun kw => searchPat kw t.data) = some cap →
      extrair_valor_total_api t = some (parseValor cap) ∧
      extrair_valor_total_app t = some (parseValor cap)) := by
  have e1 : parseValor "45,90".data = (45.90 : ℚ) := by
    rw [parseValor_eq_of _ 45 90 2 (by decide) (by decide) (by decide)]
    norm_num
  have e2 : parseValor "12.50".data = (12.50 : ℚ) := by
    rw [parseValor_eq_of _ 12 50 2 (by decide) (by decide) (by decide)]
    norm_num
  have s1 : padroesApi.findSome? (fun kw => searchPat kw ("VALOR TOTAL R$ 45,90").data)
      = some "45,90".data := by decide
  have s2 : padroesApi.findSome? (fun kw => searchPat kw ("TOTAL: 12.50").data)
      = some "12.50".data := by decide
  have hpad : carregar_padroes_regex = padroesApi := rfl
  refine ⟨?_, ?_, ?_, ?_, ?_⟩
  · unfold extrair_valor_total_app
    rw [hpad, s1]
    exact congrArg some e1
  · unfold extrair_valor_total_app
    rw [hpad, s2]
    exact congrArg some e2
  · unfold extrair_valor_total_api
    rw [s1]
    exact congrArg some e1
  · unfold extrair_valor_total_api
    rw [s2]
    exact congrArg some e2
  · intro t cap h
    constructor
    · unfold extrair_valor_total_api
      rw [h]
    · unfold extrair_valor_total_app
      rw [hpad, h]

/-- C1 witness: the general Tier-1 clause instantiated at a concrete input. -/
theorem C1_tier1_prioridade_witness :
    extrair_valor_total_api "VALOR TOTAL R$ 45,90" = some (parseValor "45,90".data) ∧
    extrair_valor_total_app "VALOR TOTAL R$ 45,90" = some (parseValor "45,90".data) :=
  C1_tier1_prioridade.2.2.2.2 "VALOR TOTAL R$ 45,90" "45,90".data (by decide)

/-- C3 counterexample: on the spec's Tier-2 example text the api.py
extractor returns `10.00`, not `23.00` — Tier-1 pattern `TOTAL A PAGAR`
already matches, its `\s*` gap crossing the newline. -/
theorem C3_contraexemplo :
    extrair_valor_total_api "ITEM 1 2,00\nTOTAL A PAGAR\n10,00 5,00 23,00" = some (10.00 : ℚ) ∧
    ¬ extrair_valor_total_api "ITEM 1 2,00\nTOTAL A PAGAR\n10,00 5,00 23,00" = some (23.00 : ℚ) := by
  have hs : padroesApi.findSome?
      (fun kw => searchPat kw ("ITEM 1 2,00\nTOTAL A PAGAR\n10,00 5,00 23,00").data)
      = some "10,00".data := by decide
  have e10 : parseValor "10,00".data = (10.00 : ℚ) := by
    rw [parseValor_eq_of _ 10 0 2 (by decide) (by decide) (by decide)]
    norm_num
  have hmain : extrair_valor_total_api "ITEM 1 2,00\nTOTAL A PAGAR\n10,00 5,00 23,00"
      = some (10.00 : ℚ) := by
    unfold extrair_valor_total_api
    rw [hs]
    exact congrArg some e10
  refine ⟨hmain, ?_⟩
  rw [hmain]
  intro hcon
  injection hcon with hval
  norm_num at hval

/-- C3 as amended: the full api.py extractor returns `10.00` on this text
(Tier 1 wins across the newline); the Tier-2 line scan on its own, applied
to the same text, returns the last number of the line after the keyword
line, `23.00`. -/
theorem C3_tier2_ultimo_numero :
    extrair_valor_total_api "ITEM 1 2,00\nTOTAL A PAGAR\n10,00 5,00 23,00" = some (10.00 : ℚ) ∧
    (tier2Api (splitLines ("ITEM 1 2,00\nTOTAL A PAGAR\n10,00 5,00 23,00").data)).map parseValor
      = some (23.00 : ℚ) := by
  have hs : padroesApi.findSome?
      (fun kw => searchPat kw ("ITEM 1 2,00\nTOTAL A PAGAR\n10,00 5,00 23,00").data)
      = some "10,00".data := by decide
  have e10 : parseValor "10,00".data = (10.00 : ℚ) := by
    rw [parseValor_eq_of _ 10 0 2 (by decide) (by decide) (by decide)]
    norm_num
  have e23 : parseValor "23,00".data = (23.00 : ℚ) := by
    rw [parseValor_eq_of _ 23 0 2 (by decide) (by decide) (by decide)]
    norm_num
  constructor
  · unfold extrair_valor_total_api
    rw [hs]
    exact congrArg some e10
  · have ht : tier2Api (splitLines ("ITEM 1 2,00\nTOTAL A PAGAR\n10,00 5,00 23,00").data)
        = some "23,00".data := by decide
    rw [ht]
    exact congrArg some e23

/-- C4: a text whose uppercase form contains none of the keywords `TOTAL`,
`VALOR`, `PAGAR` matches no Tier-1 pattern and no Tier-2 window or line, so
both extractor variants return `none` — a normal, non-exceptional outcome
(the extractors are total functions). -/
theorem C4_sem_palavra_chave (texto : String)
    (h1 : containsSub "TOTAL".data (texto.data.map Char.toUpper) = false)
    (h2 : containsSub "VALOR".data (texto.data.map Char.toUpper) = false)
    (h3 : containsSub "PAGAR".data (texto.data.map Char.toUpper) = false) :
    extrair_valor_total_api texto = none ∧ extrair_valor_total_app texto = none := by
  have hfs : ∀ kw ∈ padroesApi, searchPat kw texto.data = none := by
    intro kw hkw
    have h6 : kw = "VALOR TOTAL".data ∨ kw = "TOTAL".data ∨ kw = "TOTAL A PAGAR".data ∨
        kw = "VALOR A PAGAR".data ∨ kw = "TOTAL:".data ∨ kw = "VL TOTAL".data := by
      simpa [padroesApi] using hkw
    rcases h6 with rfl | rfl | rfl | rfl | rfl | rfl
    · exact searchPat_none_of _ _ _ ⟨"VALOR ".data, [], by decide⟩ h1
    · exact searchPat_none_of _ _ _ ⟨[], [], by decide⟩ h1
    · exact searchPat_none_of _ _ _ ⟨[], " A PAGAR".data, by decide⟩ h1
    · exact searchPat_none_of _ _ _ ⟨[], " A PAGAR".data, by decide⟩ h2
    · exact searchPat_none_of _ _ _ ⟨[], ":".data, by decide⟩ h1
    · exact searchPat_none_of _ _ _ ⟨"VL ".data, [], by decide⟩ h1
  have hT1 : padroesApi.findSome? (fun kw => searchPat kw texto.data) = none :=
    findSomeNone _ _ hfs
  have hkwline : ∀ l ∈ splitLines texto.data, hasKeyword l = false := by
    intro l hl
    cases hkb : hasKeyword l
    · rfl
    · exfalso
      obtain ⟨p, hp, hcp⟩ := List.any_eq_true.mp hkb
      have hinf : InfixOf p (l.map Char.toUpper) := infixOf_of_containsSub hcp
      have hup : InfixOf (l.map Char.toUpper) (texto.data.map Char.toUpper) :=
        infixOf_map _ (splitLines_infixOf hl)
      have hct := containsSub_of_infixOf (infixOf_trans hinf hup)
      have h6 : p = "TOTAL".data ∨ p = "VALOR".data ∨ p = "PAGAR".data := by
        simpa [palavrasChave] using hp
      rcases h6 with rfl | rfl | rfl
      · exact absurd (h1 ▸ hct) Bool.false_ne_true
      · exact absurd (h2 ▸ hct) Bool.false_ne_true
      · exact absurd (h3 ▸ hct) Bool.false_ne_true
  have htier2api : tier2Api (splitLines texto.data) = none := tier2Api_none _ hkwline
  have hfind : ∀ q : List Char, containsSub q (texto.data.map Char.toUpper) = false →
      (match findSub q (texto.data.map Char.toUpper) with
       | some idx => lastVal ((texto.data.drop idx).take 30)
       | none => none) = none := by
    intro q hq
    cases hf : findSub q (texto.data.map Char.toUpper) with
    | none => rfl
    | some idx =>
      exact absurd (hq ▸ containsSub_of_infixOf (findSub_infixOf hf)) Bool.false_ne_true
  have htier2app : tier2App texto.data = none := by
    apply findSomeNone
    intro p hp
    have h6 : p = "TOTAL".data ∨ p = "VALOR".data ∨ p = "PAGAR".data := by
      simpa [palavrasChave] using hp
    rcases h6 with rfl | rfl | rfl
    · exact hfind _ h1
    · exact hfind _ h2
    · exact hfind _ h3
  constructor
  · unfold extrair_valor_total_api
    rw [hT1, htier2api]
    rfl
  · unfold extrair_valor_total_app
    rw [show carregar_padroes_regex = padroesApi from rfl, hT1, htier2app]
    rfl

/-- C4 witness: the spec's example `"lorem ipsum"` has no keyword and both
variants return `none` on it. -/
theorem C4_sem_palavra_chave_witness :
    extrair_valor_total_api "lorem ipsum" = none ∧
    extrair_valor_total_app "lorem ipsum" = none :=
  C4_sem_palavra_chave "lorem ipsum" (by decide) (by decide) (by decide)

/-- C6: the extractors are total Lean functions (so they terminate with no
exception on every input), and any value they return is non-negative: every
returned value is `parseValor` of a captured group, a sum of a natural part
and a non-negative fraction. -/
theorem C6_valor_nao_negativo (texto : String) (v : ℚ)
    (h : extrair_valor_total_api texto = some v ∨ extrair_valor_total_app texto = some v) :
    0 ≤ v := by
  rcases h with h | h
  · unfold extrair_valor_total_api at h
    cases hfs : padroesApi.findSome? (fun kw => searchPat kw texto.data) with
    | some cap =>
      rw [hfs] at h
      injection h with hv
      rw [← hv]
      exact parseValor_nonneg cap
    | none =>
      rw [hfs] at h
      obtain ⟨a, -, ha⟩ := Option.map_eq_some'.mp h
      rw [← ha]
      exact parseValor_nonneg a
  · unfold extrair_valor_total_app at h
    cases hfs : carregar_padroes_regex.findSome? (fun kw => searchPat kw texto.data) with
    | some cap =>
      rw [hfs] at h
      injection h with hv
      rw [← hv]
      exact parseValor_nonneg cap
    | none =>
      rw [hfs] at h
      obtain ⟨a, -, ha⟩ := Option.map_eq_some'.mp h
      rw [← ha]
      exact parseValor_nonneg a

/-- C6 witness: a concrete extraction whose value is indeed non-negative. -/
theorem C6_valor_nao_negativo_witness : (0 : ℚ) ≤ (12.50 : ℚ) := by
  refine C6_valor_nao_negativo "TOTAL: 12.50" (12.50 : ℚ) (Or.inl ?_)
  have hs : padroesApi.findSome? (fun kw => searchPat kw ("TOTAL: 12.50").data)
      = some "12.50".data := by decide
  have e2 : parseValor "12.50".data = (12.50 : ℚ) := by
    rw [parseValor_eq_of _ 12 50 2 (by decide) (by decide) (by decide)]
    norm_num
  unfold extrair_valor_total_api
  rw [hs]
  exact congrArg some e2

/-- C10: the two extractor variants carry textually identical Tier-1
pattern lists (precompilation and `lru_cache` memoisation are
semantics-preserving), so on every input on which some Tier-1 pattern
matches the two variants return the same value. -/
theorem C10_variantes_equivalentes :
    carregar_padroes_regex = padroesApi ∧
    (∀ (t : String) (cap : List Char),
      padroesApi.findSome? (fun kw => searchPat kw t.data) = some cap →
      extrair_valor_total_api t = extrair_valor_total_app t) := by
  refine ⟨rfl, ?_⟩
  intro t cap h
  unfold extrair_valor_total_api extrair_valor_total_app
  rw [show carregar_padroes_regex = padroesApi from rfl, h]

/-- C10 witness: the equivalence instantiated at a Tier-1-matching input. -/
theorem C10_variantes_equivalentes_witness :
    extrair_valor_total_api "VALOR TOTAL R$ 45,90"
      = extrair_valor_total_app "VALOR TOTAL R$ 45,90" :=
  C10_variantes_equivalentes.2 "VALOR TOTAL R$ 45,90" "45,90".data (by decide)

/-! ## Lemmas about the image pipeline -/

theorem floorScale (l c a : Nat) :
    Nat.floor ((l : ℚ) * ((c : ℚ) / (a : ℚ))) = l * c / a := by
  rw [show ((l:ℚ) * ((c:ℚ) / (a:ℚ))) = ((l * c : Nat) : ℚ) / ((a : Nat) : ℚ) by
    push_cast; ring]
  rw [Nat.floor_div_nat, Nat.floor_natCast]

theorem redim_id (imagem : Img) (cap : Nat)
    (h : max imagem.altura imagem.largura ≤ cap) :
    redimensionar_imagem imagem cap = imagem := by
  unfold redimensionar_imagem
  rw [if_pos h]

theorem redim_altura_le (imagem : Img) (cap : Nat) :
    (redimensionar_imagem imagem cap).altura ≤ imagem.altura := by
  by_cases h : max imagem.altura imagem.largura ≤ cap
  · rw [redim_id _ _ h]
  · unfold redimensionar_imagem
    rw [if_neg h]
    by_cases hl : imagem.largura < imagem.altura
    · rw [if_pos hl]
      show cap ≤ imagem.altura
      omega
    · rw [if_neg hl]
      show Nat.floor ((imagem.altura : ℚ) * ((cap : ℚ) / (imagem.largura : ℚ)))
        ≤ imagem.altura
      rw [floorScale]
      apply Nat.div_le_of_le_mul
      have hcap : cap ≤ imagem.largura := by omega
      calc imagem.altura * cap ≤ imagem.altura * imagem.largura :=
            Nat.mul_le_mul_left _ hcap
        _ = imagem.largura * imagem.altura := Nat.mul_comm _ _

theorem redim_largura_le (imagem : Img) (cap : Nat) :
    (redimensionar_imagem imagem cap).largura ≤ imagem.largura := by
  by_cases h : max imagem.altura imagem.largura ≤ cap
  · rw [redim_id _ _ h]
  · unfold redimensionar_imagem
    rw [if_neg h]
    by_cases hl : imagem.largura < imagem.altura
    · rw [if_pos hl]
      show Nat.floor ((imagem.largura : ℚ) * ((cap : ℚ) / (imagem.altura : ℚ)))
        ≤ imagem.largura
      rw [floorScale]
      apply Nat.div_le_of_le_mul
      have hcap : cap ≤ imagem.altura := by omega
      calc imagem.largura * cap ≤ imagem.largura * imagem.altura :=
            Nat.mul_le_mul_left _ hcap
        _ = imagem.altura * imagem.largura := Nat.mul_comm _ _
    · rw [if_neg hl]
      show cap ≤ imagem.largura
      omega

/-- C7: the resize step leaves the image untouched whenever the longer side
is at most the cap (as used with cap 1200 in `imagemTrabalho`, the step
before detection, and cap 800 in `melhorar_imagem_para_ocr`, the step
before OCR); otherwise the longer side of the output equals the cap and the
shorter side is the proportional value truncated to an integer, so the
aspect ratio is preserved up to that truncation. -/
theorem C7_redimensionar (imagem : Img) (cap : Nat) :
    (max imagem.altura imagem.largura ≤ cap → redimensionar_imagem imagem cap = imagem) ∧
    (cap < max imagem.altura imagem.largura →
      ((imagem.largura < imagem.altura →
        (redimensionar_imagem imagem cap).altura = cap ∧
        (redimensionar_imagem imagem cap).largura = imagem.largura * cap / imagem.altura) ∧
       (imagem.altura ≤ imagem.largura →
        (redimensionar_imagem imagem cap).largura = cap ∧
        (redimensionar_imagem imagem cap).altura = imagem.altura * cap / imagem.largura) ∧
       max (redimensionar_imagem imagem cap).altura
         (redimensionar_imagem imagem cap).largura = cap)) := by
  constructor
  · exact redim_id imagem cap
  · intro h
    have hnot : ¬ max imagem.altura imagem.largura ≤ cap := by omega
    refine ⟨?_, ?_, ?_⟩
    · intro hl
      unfold redimensionar_imagem
      rw [if_neg hnot, if_pos hl]
      exact ⟨rfl, floorScale _ _ _⟩
    · intro hl
      have hnl : ¬ imagem.largura < imagem.altura := by omega
      unfold redimensionar_imagem
      rw [if_neg hnot, if_neg hnl]
      exact ⟨rfl, floorScale _ _ _⟩
    · by_cases hl : imagem.largura < imagem.altura
      · unfold redimensionar_imagem
        rw [if_neg hnot, if_pos hl]
        show max cap (Nat.floor ((imagem.largura : ℚ) * ((cap : ℚ) / (imagem.altura : ℚ)))) = cap
        rw [floorScale]
        have hle : imagem.largura * cap / imagem.altura ≤ cap := by
          apply Nat.div_le_of_le_mul
          exact Nat.mul_le_mul_right _ (Nat.le_of_lt hl)
        omega
      · unfold redimensionar_imagem
        rw [if_neg hnot, if_neg hl]
        show max (Nat.floor ((imagem.altura : ℚ) * ((cap : ℚ) / (imagem.largura : ℚ)))) cap = cap
        rw [floorScale]
        have hle : imagem.altura * cap / imagem.largura ≤ cap := by
          apply Nat.div_le_of_le_mul
          exact Nat.mul_le_mul_right _ (by omega)
        omega

/-- C7 witness: a 100 × 50 image is below both caps and passes through
unchanged. -/
theorem C7_redimensionar_witness :
    redimensionar_imagem ⟨100, 50, 3, fun _ _ _ => 0⟩ 1200
      = (⟨100, 50, 3, fun _ _ _ => 0⟩ : Img) :=
  (C7_redimensionar ⟨100, 50, 3, fun _ _ _ => 0⟩ 1200).1 (by decide)

/-- C9: the enhancer always yields a single-channel image, its dimensions
never exceed the input's (the 800-cap resize only ever shrinks), and after
the binary threshold every pixel value is one of the two extremes 0 and
255, whatever threshold Otsu's search selects. -/
theorem C9_melhorar (imagem : Img) (otsuT : Nat) :
    (melhorar_imagem_para_ocr imagem otsuT).canais = 1 ∧
    (melhorar_imagem_para_ocr imagem otsuT).altura ≤ imagem.altura ∧
    (melhorar_imagem_para_ocr imagem otsuT).largura ≤ imagem.largura ∧
    ∀ r c k, (melhorar_imagem_para_ocr imagem otsuT).dados r c k = 0 ∨
      (melhorar_imagem_para_ocr imagem otsuT).dados r c k = 255 := by
  unfold melhorar_imagem_para_ocr
  by_cases h : (redimensionar_imagem imagem 800).canais = 1
  · rw [if_pos h]
    refine ⟨h, redim_altura_le _ _, redim_largura_le _ _, ?_⟩
    intro r c k
    show (if otsuT < (redimensionar_imagem imagem 800).dados r c k then (255:Nat) else 0) = 0 ∨
      (if otsuT < (redimensionar_imagem imagem 800).dados r c k then (255:Nat) else 0) = 255
    split
    · exact Or.inr rfl
    · exact Or.inl rfl
  · rw [if_neg h]
    refine ⟨rfl, redim_altura_le _ _, redim_largura_le _ _, ?_⟩
    intro r c k
    show (if otsuT < (cv2_cvtColor_gray (redimensionar_imagem imagem 800)).dados r c k
        then (255:Nat) else 0) = 0 ∨
      (if otsuT < (cv2_cvtColor_gray (redimensionar_imagem imagem 800)).dados r c k
        then (255:Nat) else 0) = 255
    split
    · exact Or.inr rfl
    · exact Or.inl rfl

/-- C5 as amended: when no contour exists or none has area above the 5%
threshold, the detector returns the *working* image — the input after the
initial proportional resize to the 1200 cap — unmodified; this equals the
whole input image unmodified exactly when the input's longer side is at
most 1200.  The step is a total function: it never fails. -/
theorem C5_retorno_imagem_trabalho (imagem : Img) (contornos : List Contour)
    (h : ∀ c ∈ contornos, contourArea c ≤ areaMinima (imagemTrabalho imagem)) :
    detectar_e_cortar_cupom imagem contornos = imagemTrabalho imagem ∧
    (max imagem.altura imagem.largura ≤ MAX_SIZE →
      detectar_e_cortar_cupom imagem contornos = imagem) := by
  have hdet : detectar_e_cortar_cupom imagem contornos = imagemTrabalho imagem := by
    unfold detectar_e_cortar_cupom
    cases hc : contornos.isEmpty with
    | true => rw [if_pos rfl]
    | false =>
      rw [if_neg (by simp)]
      have hnil : contornosGrandes imagem contornos = [] := by
        apply List.filter_eq_nil_iff.mpr
        intro c hc2
        simp only [decide_eq_true_eq]
        exact not_lt.mpr (h c hc2)
      rw [if_pos (by rw [hnil]; rfl)]
  refine ⟨hdet, fun hcap => ?_⟩
  rw [hdet]
  exact redim_id _ _ hcap

/-- C5 witness: a small solid image with no contours comes back unmodified. -/
theorem C5_retorno_imagem_trabalho_witness :
    detectar_e_cortar_cupom ⟨10, 10, 3, fun _ _ _ => 0⟩ []
      = (⟨10, 10, 3, fun _ _ _ => 0⟩ : Img) :=
  (C5_retorno_imagem_trabalho ⟨10, 10, 3, fun _ _ _ => 0⟩ [] (by simp)).2 (by decide)

/-- C5 counterexample: for a 2400-wide input and no contours the detector
returns the 1200-wide resized working image, not the input unmodified. -/
theorem C5_contraexemplo :
    (detectar_e_cortar_cupom ⟨600, 2400, 3, fun _ _ _ => 0⟩ []).largura = 1200 ∧
    (⟨600, 2400, 3, fun _ _ _ => 0⟩ : Img).largura = 2400 ∧
    ¬ detectar_e_cortar_cupom ⟨600, 2400, 3, fun _ _ _ => 0⟩ []
        = (⟨600, 2400, 3, fun _ _ _ => 0⟩ : Img) := by
  refine ⟨rfl, rfl, fun he => ?_⟩
  exact absurd (congrArg Img.largura he) (by decide)

theorem foldMinBy_le_init (f : Nat × Nat → Nat) :
    ∀ (ps : List (Nat × Nat)) (a : Nat), foldMinBy f ps a ≤ a := by
  intro ps
  induction ps with
  | nil => intro a; exact le_refl a
  | cons q ps ih =>
    intro a
    have h1 : foldMinBy f (q :: ps) a = foldMinBy f ps (min a (f q)) := rfl
    rw [h1]
    exact le_trans (ih _) (Nat.min_le_left _ _)

theorem init_le_foldMaxBy (f : Nat × Nat → Nat) :
    ∀ (ps : List (Nat × Nat)) (a : Nat), a ≤ foldMaxBy f ps a := by
  intro ps
  induction ps with
  | nil => intro a; exact le_refl a
  | cons q ps ih =>
    intro a
    have h1 : foldMaxBy f (q :: ps) a = foldMaxBy f ps (max a (f q)) := rfl
    rw [h1]
    exact le_trans (Nat.le_max_left _ _) (ih _)

theorem foldMaxBy_lt (f : Nat × Nat → Nat) (B : Nat) :
    ∀ (ps : List (Nat × Nat)) (a : Nat), a < B → (∀ q ∈ ps, f q < B) →
      foldMaxBy f ps a < B := by
  intro ps
  induction ps with
  | nil => intro a ha _; exact ha
  | cons q ps ih =>
    intro a ha hq
    have h1 : foldMaxBy f (q :: ps) a = foldMaxBy f ps (max a (f q)) := rfl
    rw [h1]
    apply ih
    · exact max_lt ha (hq q (List.mem_cons_self _ _))
    · intro x hx
      exact hq x (List.mem_cons_of_mem _ hx)

theorem maxByArea_mem : ∀ (cs : List Contour) (best : Contour),
    maxByArea best cs = best ∨ maxByArea best cs ∈ cs := by
  intro cs
  induction cs with
  | nil => intro best; exact Or.inl rfl
  | cons c cs ih =>
    intro best
    have hstep : maxByArea best (c :: cs)
        = maxByArea (if contourArea best < contourArea c then c else best) cs := rfl
    rcases ih (if contourArea best < contourArea c then c else best) with h | h
    · rw [hstep, h]
      by_cases hc : contourArea best < contourArea c
      · rw [if_pos hc]
        exact Or.inr (List.mem_cons_self _ _)
      · rw [if_neg hc]
        exact Or.inl rfl
    · rw [hstep]
      exact Or.inr (List.mem_cons_of_mem _ h)

theorem pickMax_mem (l : List Contour) (h : l ≠ []) : pickMax l ∈ l := by
  cases l with
  | nil => exact absurd rfl h
  | cons c cs =>
    show maxByArea c cs ∈ c :: cs
    rcases maxByArea_mem cs c with h2 | h2
    · rw [h2]
      exact List.mem_cons_self _ _
    · exact List.mem_cons_of_mem _ h2

theorem areaMinima_nonneg (img : Img) : 0 ≤ areaMinima img := by
  unfold areaMinima
  apply mul_nonneg (mul_nonneg (Nat.cast_nonneg _) (Nat.cast_nonneg _))
  norm_num

/-- C8: whenever a contour survives the area filter (so a crop happens),
and given `cv2.findContours`'s contract that contour points are pixel
coordinates of the working image, the selected bounding box lies fully
within the working image's bounds, has positive width and height, and the
cropped image returned has positive dimensions (non-empty data). -/
theorem C8_caixa_dentro_dos_limites (imagem : Img) (contornos : List Contour)
    (hpts : ∀ c ∈ contornos, ∀ p ∈ c,
      p.1 < (imagemTrabalho imagem).largura ∧ p.2 < (imagemTrabalho imagem).altura)
    (hg : (contornosGrandes imagem contornos).isEmpty = false) :
    (caixaSelecionada imagem contornos).x + (caixaSelecionada imagem contornos).w
      ≤ (imagemTrabalho imagem).largura ∧
    (caixaSelecionada imagem contornos).y + (caixaSelecionada imagem contornos).h
      ≤ (imagemTrabalho imagem).altura ∧
    0 < (caixaSelecionada imagem contornos).w ∧
    0 < (caixaSelecionada imagem contornos).h ∧
    0 < (detectar_e_cortar_cupom imagem contornos).largura ∧
    0 < (detectar_e_cortar_cupom imagem contornos).altura := by
  have hgne : contornosGrandes imagem contornos ≠ [] := by
    intro he
    rw [he] at hg
    exact absurd hg (by simp)
  have hmem : pickMax (contornosGrandes imagem contornos) ∈ contornosGrandes imagem contornos :=
    pickMax_mem _ hgne
  have harea : areaMinima (imagemTrabalho imagem)
      < contourArea (pickMax (contornosGrandes imagem contornos)) := by
    have h2 := (List.mem_filter.mp hmem).2
    exact of_decide_eq_true h2
  have hne : pickMax (contornosGrandes imagem contornos) ≠ [] := by
    intro he
    rw [he] at harea
    have h0 : contourArea ([] : Contour) = 0 := rfl
    rw [h0] at harea
    exact absurd harea (not_lt.mpr (areaMinima_nonneg _))
  obtain ⟨p, ps, hmp⟩ := List.exists_cons_of_ne_nil hne
  have hmemc : (p :: ps) ∈ contornos := by
    rw [← hmp]
    exact (List.mem_filter.mp hmem).1
  have hptsm : ∀ q ∈ (p :: ps), q.1 < (imagemTrabalho imagem).largura ∧
      q.2 < (imagemTrabalho imagem).altura := fun q hq => hpts _ hmemc q hq
  have hcaixa : caixaSelecionada imagem contornos = boundingRect (p :: ps) := by
    unfold caixaSelecionada
    rw [hmp]
  have hbx : (caixaSelecionada imagem contornos).x = foldMinBy Prod.fst ps p.1 := by
    rw [hcaixa]
    rfl
  have hby : (caixaSelecionada imagem contornos).y = foldMinBy Prod.snd ps p.2 := by
    rw [hcaixa]
    rfl
  have hbw : (caixaSelecionada imagem contornos).w
      = foldMaxBy Prod.fst ps p.1 - foldMinBy Prod.fst ps p.1 + 1 := by
    rw [hcaixa]
    rfl
  have hbh : (caixaSelecionada imagem contornos).h
      = foldMaxBy Prod.snd ps p.2 - foldMinBy Prod.snd ps p.2 + 1 := by
    rw [hcaixa]
    rfl
  have hminx : foldMinBy Prod.fst ps p.1 ≤ p.1 := foldMinBy_le_init _ _ _
  have hmaxx : p.1 ≤ foldMaxBy Prod.fst ps p.1 := init_le_foldMaxBy _ _ _
  have hminy : foldMinBy Prod.snd ps p.2 ≤ p.2 := foldMinBy_le_init _ _ _
  have hmaxy : p.2 ≤ foldMaxBy Prod.snd ps p.2 := init_le_foldMaxBy _ _ _
  have hmaxxlt : foldMaxBy Prod.fst ps p.1 < (imagemTrabalho imagem).largura :=
    foldMaxBy_lt _ _ _ _ (hptsm p (List.mem_cons_self _ _)).1
      (fun q hq => (hptsm q (List.mem_cons_of_mem _ hq)).1)
  have hmaxylt : foldMaxBy Prod.snd ps p.2 < (imagemTrabalho imagem).altura :=
    foldMaxBy_lt _ _ _ _ (hptsm p (List.mem_cons_self _ _)).2
      (fun q hq => (hptsm q (List.mem_cons_of_mem _ hq)).2)
  have hcne : contornos.isEmpty = false := by
    cases hl : contornos with
    | nil =>
      exfalso
      apply hgne
      rw [hl]
      rfl
    | cons a l => rfl
  have hdet : detectar_e_cortar_cupom imagem contornos
      = cropImg (imagemTrabalho imagem) (caixaSelecionada imagem contornos).x
          (caixaSelecionada imagem contornos).y (caixaSelecionada imagem contornos).w
          (caixaSelecionada imagem contornos).h := by
    unfold detectar_e_cortar_cupom
    rw [if_neg (by simp [hcne]), if_neg (by simp [hg])]
  have hlargura : (detectar_e_cortar_cupom imagem contornos).largura
      = min ((caixaSelecionada imagem contornos).x + (caixaSelecionada imagem contornos).w)
          (imagemTrabalho imagem).largura
        - min (caixaSelecionada imagem contornos).x (imagemTrabalho imagem).largura := by
    rw [hdet]
    rfl
  have haltura : (detectar_e_cortar_cupom imagem contornos).altura
      = min ((caixaSelecionada imagem contornos).y + (caixaSelecionada imagem contornos).h)
          (imagemTrabalho imagem).altura
        - min (caixaSelecionada imagem contornos).y (imagemTrabalho imagem).altura := by
    rw [hdet]
    rfl
  refine ⟨?_, ?_, ?_, ?_, ?_, ?_⟩
  · rw [hbx, hbw]
    omega
  · rw [hby, hbh]
    omega
  · rw [hbw]
    omega
  · rw [hbh]
    omega
  · rw [hlargura, hbx, hbw]
    omega
  · rw [haltura, hby, hbh]
    omega

/-- C8 witness: a 10 × 10 image with one square contour of area 81 (above
the 5% threshold of 5) yields a positive-size crop. -/
theorem C8_caixa_dentro_dos_limites_witness :
    0 < (caixaSelecionada ⟨10, 10, 3, fun _ _ _ => 0⟩
      [[(0, 0), (9, 0), (9, 9), (0, 9)]]).w ∧
    0 < (detectar_e_cortar_cupom ⟨10, 10, 3, fun _ _ _ => 0⟩
      [[(0, 0), (9, 0), (9, 9), (0, 9)]]).largura := by
  have h3 : (shoelaceAux (0, 0) ([(0, 0), (9, 0), (9, 9), (0, 9)] :
      List (Nat × Nat))).natAbs = 162 := by decide
  have harea : areaMinima (imagemTrabalho ⟨10, 10, 3, fun _ _ _ => 0⟩)
      < contourArea [(0, 0), (9, 0), (9, 9), (0, 9)] := by
    have h1 : imagemTrabalho ⟨10, 10, 3, fun _ _ _ => 0⟩
        = (⟨10, 10, 3, fun _ _ _ => 0⟩ : Img) := redim_id _ _ (by decide)
    rw [h1]
    have h2 : contourArea [(0, 0), (9, 0), (9, 9), (0, 9)] = ((162 : Nat) : ℚ) / 2 := by
      show ((shoelaceAux (0, 0) ([(0, 0), (9, 0), (9, 9), (0, 9)] :
        List (Nat × Nat))).natAbs : ℚ) / 2 = ((162 : Nat) : ℚ) / 2
      rw [h3]
    rw [h2]
    show ((10 : Nat) : ℚ) * ((10 : Nat) : ℚ) * (0.05 : ℚ) < ((162 : Nat) : ℚ) / 2
    push_cast
    norm_num
  have hg : (contornosGrandes ⟨10, 10, 3, fun _ _ _ => 0⟩
      [[(0, 0), (9, 0), (9, 9), (0, 9)]]).isEmpty = false := by
    have hd : decide (areaMinima (imagemTrabalho ⟨10, 10, 3, fun _ _ _ => 0⟩)
        < contourArea [(0, 0), (9, 0), (9, 9), (0, 9)]) = true := decide_eq_true harea
    have hstep : contornosGrandes ⟨10, 10, 3, fun _ _ _ => 0⟩
        [[(0, 0), (9, 0), (9, 9), (0, 9)]] = [[(0, 0), (9, 0), (9, 9), (0, 9)]] := by
      unfold contornosGrandes
      rw [List.filter_cons, if_pos hd, List.filter_nil]
    rw [hstep]
    rfl
  have hmain := C8_caixa_dentro_dos_limites ⟨10, 10, 3, fun _ _ _ => 0⟩
    [[(0, 0), (9, 0), (9, 9), (0, 9)]] (by decide) hg
  exact ⟨hmain.2.2.1, hmain.2.2.2.2.1⟩

/-- C2: the `raise HTTPException(404)` for a completed pipeline with no
extracted value sits inside the `try` block, and `except Exception` catches
`HTTPException` too, so the caller receives HTTP 500 ("processing error",
wrapping the 404 text in its detail) rather than the distinct HTTP 404 —
the NotFound outcome is indistinguishable by status from a genuine
processing failure (third conjunct), in both endpoint variants. -/
theorem C2_404_engolido_pelo_500 :
    extrair_valor_cupom_app "image/png" (Except.ok "lorem ipsum")
      = Resp.err 500
        "Erro ao processar a imagem: 404: Não foi possível encontrar o valor total no cupom" ∧
    extrair_valor_cupom_api "image/png" (Except.ok "lorem ipsum")
      = Resp.err 500
        "Erro ao processar a imagem: 404: Não foi possível encontrar o valor total no cupom" ∧
    extrair_valor_cupom_app "image/png" (Except.error (PyExc.other "cannot identify image file"))
      = Resp.err 500 "Erro ao processar a imagem: cannot identify image file" := by
  refine ⟨?_, ?_, ?_⟩ <;> rfl
